import Mathlib

/-!
Shallow embedding of the filekeeper backup/prune engine (Go), together with
theorems checking the natural-language specification against it.

Modelling conventions, used throughout:
* Go `int` / `int64` counters and byte totals are modelled as `Int`
  (the counters never approach 2^63 on any input considered here).
* Go `float64` percentages are modelled exactly over `ℚ`.
* Go `error` values are modelled as `String` messages (`Option String` where
  `nil` is possible); the distinguished "error threshold exceeded" abort of a
  walk is modelled by the dedicated type `RunErr`.
* Filesystem mutation is made observable: every function that performs I/O in
  Go additionally returns the ordered list of mutating operations (`FsOp`) it
  performs.  A dry run, for instance, must produce an empty list.
* `filepath.Walk` visits are modelled as structural recursion over a list of
  `Entry` values (the walk order is filesystem-dependent in Go; the list fixes
  one order).  Context cancellation is not modelled: all theorems below are
  about uncancelled runs, on which `ctx.Done()` is never ready.
-/

/-- Model of one filesystem entry delivered by `filepath.Walk`:
its path, directory flag, modification time (an instant, `Int`), size, and
the two I/O outcomes the Go code branches on: `accessErr` (walk delivers a
non-nil `err` for this entry) and `removeFails` (`os.Remove` would fail). -/
structure Entry where
  path : String
  isDir : Bool
  modTime : Int
  size : Int
  accessErr : Option String
  removeFails : Option String
deriving Repr, DecidableEq

/-- Observable filesystem mutations performed by the engine.  `remoteCopy`
records an invocation of the external secure-copy transport with its two
arguments (local source path, remote destination string). -/
inductive FsOp where
  | mkdirAll (dir : String)
  | writeFile (path : String)
  | remove (path : String)
  | remoteCopy (src : String) (remote : String)
deriving Repr, DecidableEq

/-- FileError from the Go sources (both the `backup` and the `pruner` package
declare the identical struct `{Path, Operation, Err}`; one Lean structure
models both, with the wrapped Go `error` as its message string). -/
structure FileError where
  Path : String
  Operation : String
  Err : String
deriving Repr, DecidableEq

namespace Backup

/-- Result of a backup/prune run, from `package backup`
(fields as in the current `Result` struct, including the
compression/archive statistics). -/
@[ext]
structure Result where
  Succeeded : Int
  Failed : Int
  Skipped : Int
  Errors : List FileError
  TotalBytes : Int
  BackedUp : Int
  Pruned : Int
  RemoteCopied : Int
  OriginalBytes : Int
  CompressedBytes : Int
  ArchiveSize : Int
  ArchivePath : String
deriving Repr, DecidableEq

/-- Go `NewResult`: the zero Result with an empty error list. -/
def NewResult : Result :=
  { Succeeded := 0, Failed := 0, Skipped := 0, Errors := []
    TotalBytes := 0, BackedUp := 0, Pruned := 0, RemoteCopied := 0
    OriginalBytes := 0, CompressedBytes := 0, ArchiveSize := 0, ArchivePath := "" }

/-- Go `Result.AddError`: append one FileError and increment `Failed`. -/
def Result.AddError (r : Result) (path operation err : String) : Result :=
  { r with Errors := r.Errors ++ [⟨path, operation, err⟩], Failed := r.Failed + 1 }

/-- Go `Result.AddSuccess`: increment `Succeeded` and add to `TotalBytes`. -/
def Result.AddSuccess (r : Result) (bytes : Int) : Result :=
  { r with Succeeded := r.Succeeded + 1, TotalBytes := r.TotalBytes + bytes }

/-- Go `Result.FailureRate`: `failed / (succeeded+failed) * 100`, with 0 for an
empty denominator.  The Go float64 arithmetic is modelled exactly over `ℚ`. -/
def Result.FailureRate (r : Result) : ℚ :=
  let total : Int := r.Succeeded + r.Failed
  if total = 0 then 0 else (r.Failed : ℚ) / (total : ℚ) * 100

/-- Go `Result.Merge` (receiver first, `other` second): sum every numeric
field, concatenate the error lists in that order, and adopt `other`'s
`ArchivePath` only when the receiver's is empty and `other`'s is not.
The Go `nil` guard on `other` is pointer plumbing with no counterpart here. -/
def Result.Merge (r other : Result) : Result :=
  { Succeeded := r.Succeeded + other.Succeeded
    Failed := r.Failed + other.Failed
    Skipped := r.Skipped + other.Skipped
    TotalBytes := r.TotalBytes + other.TotalBytes
    BackedUp := r.BackedUp + other.BackedUp
    Pruned := r.Pruned + other.Pruned
    RemoteCopied := r.RemoteCopied + other.RemoteCopied
    OriginalBytes := r.OriginalBytes + other.OriginalBytes
    CompressedBytes := r.CompressedBytes + other.CompressedBytes
    ArchiveSize := r.ArchiveSize + other.ArchiveSize
    ArchivePath := if other.ArchivePath ≠ "" ∧ r.ArchivePath = ""
                   then other.ArchivePath else r.ArchivePath
    Errors := r.Errors ++ other.Errors }

end Backup

namespace Pruner

/-- Result of a prune pass, from `package pruner` (`result.go`). -/
structure Result where
  Pruned : Int
  Failed : Int
  Skipped : Int
  Errors : List FileError
deriving Repr, DecidableEq

/-- Go `pruner.NewResult`. -/
def NewResult : Result := { Pruned := 0, Failed := 0, Skipped := 0, Errors := [] }

/-- Go `pruner.Result.AddError`. -/
def Result.AddError (r : Result) (path operation err : String) : Result :=
  { r with Errors := r.Errors ++ [⟨path, operation, err⟩], Failed := r.Failed + 1 }

/-- Go `pruner.Result.FailureRate`: `failed / (pruned+failed) * 100`, 0 when
the denominator is 0 (for the pruner, `Pruned` plays the success role). -/
def Result.FailureRate (r : Result) : ℚ :=
  let total : Int := r.Pruned + r.Failed
  if total = 0 then 0 else (r.Failed : ℚ) / (total : ℚ) * 100

end Pruner

namespace Compression

/-- Compression configuration from `pkg/compression` (`Algorithm` is a Go
string type with constants `"none"` and `"gzip"`; modelled as `String`). -/
structure Config where
  Enabled : Bool
  Algorithm : String
  Level : Int
deriving Repr, DecidableEq

/-- Go `compression.ExtensionFor`: `".gz"` for gzip, empty otherwise. -/
def ExtensionFor (alg : String) : String :=
  if alg = "gzip" then ".gz" else ""

/-- Go `compression.GetDestinationPath`: the destination path with the
compression extension appended when compression is effectively on
(enabled and the algorithm is neither `"none"` nor empty). -/
def GetDestinationPath (dest : String) (cfg : Config) : String :=
  if ¬cfg.Enabled ∨ cfg.Algorithm = "none" ∨ cfg.Algorithm = "" then dest
  else dest ++ ExtensionFor cfg.Algorithm

end Compression

/-- Go `filepath.Join` restricted to two non-empty clean components, the only
shape the engine uses for destination paths. -/
def joinPath (a b : String) : String := a ++ "/" ++ b

/-- Go `filepath.Rel(root, path)` on the paths produced by walking `root`:
every such path either is `root` itself or extends `root ++ "/"`, and `Rel`
then returns the suffix after `root ++ "/"` (and never fails). -/
def relPathOf (root path : String) : String :=
  let pre := (root ++ "/").data
  if pre.isPrefixOf path.data then String.mk (path.data.drop pre.length) else path

/-- Characters strictly before the last `/` of a character list, or `none`
when it has no `/`. -/
def beforeLastSlash : List Char → Option (List Char)
  | [] => none
  | c :: cs =>
    match beforeLastSlash cs with
    | some l => some (c :: l)
    | none => if c = '/' then some [] else none

/-- Go `filepath.Dir` on the clean slash-joined paths the engine builds:
everything before the final `/`, and `"."` for a path with no separator. -/
def dirOf (p : String) : String :=
  match beforeLastSlash p.data with
  | some l => String.mk l
  | none => "."

/-- Distinguished abort of a walk: the `error threshold exceeded` failure that
`fmt.Errorf` produces when the running failure rate passes the breaker.
It is the only error an uncancelled walk can return. -/
inductive RunErr where
  | thresholdExceeded
deriving Repr, DecidableEq

namespace Pruner

/-- The walk callback loop of Go `pruner.PruneFiles`, one list entry per
`filepath.Walk` visit, threading the accumulated `Result`.  Per entry, in
source order: an access error is recorded and the walk continues; directories
are ignored; an entry not strictly older than the threshold counts as
skipped; otherwise the file is deleted (`os.Remove`, recorded as a `remove`
operation).  A failed deletion is recorded as a `"prune"` error, and when
`errorThresholdPercent > 0` and the running failure rate strictly exceeds it,
the walk aborts at once with `RunErr.thresholdExceeded`, returning the
accounting so far.  The `dryRun` branch is not present in the
`src/internal/pruner` sources (only its caller passes `opts.DryRun`);
it is modelled from the spec: "Dry-run performs the same accounting without
calling the delete primitive", so it records the prune without emitting the
`remove` operation. -/
def pruneWalk (threshold : Int) (errorThresholdPercent : ℚ) (dryRun : Bool) :
    List Entry → Result → Result × List FsOp × Option RunErr
  | [], r => (r, [], none)
  | e :: rest, r =>
    match e.accessErr with
    | some msg => pruneWalk threshold errorThresholdPercent dryRun rest
        (r.AddError e.path "access" msg)
    | none =>
      if e.isDir then pruneWalk threshold errorThresholdPercent dryRun rest r
      else if e.modTime < threshold then
        if dryRun then
          pruneWalk threshold errorThresholdPercent dryRun rest
            { r with Pruned := r.Pruned + 1 }
        else
          match e.removeFails with
          | some msg =>
            let r' := r.AddError e.path "prune" msg
            if 0 < errorThresholdPercent ∧ errorThresholdPercent < r'.FailureRate
            then (r', [], some RunErr.thresholdExceeded)
            else pruneWalk threshold errorThresholdPercent dryRun rest r'
          | none =>
            let out := pruneWalk threshold errorThresholdPercent dryRun rest
              { r with Pruned := r.Pruned + 1 }
            (out.1, FsOp.remove e.path :: out.2.1, out.2.2)
      else pruneWalk threshold errorThresholdPercent dryRun rest
        { r with Skipped := r.Skipped + 1 }

/-- Go `pruner.PruneFiles` on an uncancelled context: walk the directory
(the entry list) with a fresh `Result`. -/
def PruneFiles (fs : List Entry) (pruneThreshold : Int)
    (errorThresholdPercent : ℚ) (dryRun : Bool) :
    Result × List FsOp × Option RunErr :=
  pruneWalk pruneThreshold errorThresholdPercent dryRun fs NewResult

end Pruner

namespace Backup

/-- The run parameters `RunBackup` reads from the validated configuration.
`backupPaths`, `remoteBackups` and `comp` hold the values of
`cfg.GetBackupPaths()`, `cfg.GetRemoteBackups()` and
`cfg.GetCompressionConfig()`: that merging/defaulting lives in the excluded
config layer, so the engine model takes the already-resolved lists.  Archive
mode (`runArchiveBackup`) is modelled separately in the `Archive` namespace;
this `Config` describes runs with archive mode disabled, the only
configurations the theorems below supply. -/
structure Config where
  TargetFolder : String
  EnableBackup : Bool
  ErrorThresholdPercent : ℚ
  backupPaths : List String
  remoteBackups : List String
  comp : Compression.Config

/-- Scheduling and I/O outcomes that Go resolves at run time, taken as an
explicit environment: `arrival` gives, per source file, the order in which
the per-destination goroutines complete (and hence the order their messages
are drained from the success/error channels) — a permutation of the
destination list decided by the scheduler, not by the code; `localOutcome`
gives, per source file and local destination root, either the error message
the goroutine puts on its error channel or the `CompressedSize` reported by
`compression.CompressFile`; `remoteOk` tells whether one
`utils.ExecuteRemoteCopy(source, remote)` call succeeds. -/
structure Env where
  arrival : String → List String
  localOutcome : String → String → Except String Int
  remoteOk : String → String → Bool

/-- The sequential remote-destination loop at the end of Go
`backupFileToAllDestinations` (uncancelled): each remote destination is
attempted in list order from the fixed local `sourcePath`; a success counts
`RemoteCopied` and records the transport invocation, a failure is logged and
skipped. -/
def remoteLoop (remoteOk : String → String → Bool) (sourcePath : String) :
    List String → Result × List FsOp → Result × List FsOp
  | [], acc => acc
  | rm :: rest, acc =>
    if remoteOk sourcePath rm then
      remoteLoop remoteOk sourcePath rest
        ({ acc.1 with RemoteCopied := acc.1.RemoteCopied + 1 },
         acc.2 ++ [FsOp.remoteCopy sourcePath rm])
    else remoteLoop remoteOk sourcePath rest acc

/-- Whether the goroutine for local destination root `bp` reported success
(put a value on the success channel) rather than an error. -/
def localOk (localOutcome : String → Except String Int) (bp : String) : Bool :=
  match localOutcome bp with
  | Except.ok _ => true
  | Except.error _ => false

/-- Go `backupFileToAllDestinations` for one qualifying file, uncancelled.
In dry-run it only logs prospective destinations: no operation, no error.
Otherwise each local destination is attempted by its own goroutine (a failed
attempt contributes its message to the error channel and no modelled
operation; a successful one creates the parent directory and writes the
post-compression artifact at `GetDestinationPath(join(bp, relPath))`); the
channels are drained in completion order `arrival`.  Compression statistics
are added for each success when compression is enabled.  If no local attempt
succeeded and at least one local destination is configured, the file fails
with `all local backups failed` (carrying the first drained error).
Otherwise remote destinations are attempted sequentially, each from the
artifact of the *first drained* local success, counting `RemoteCopied` for
each success and skipping failures. -/
def backupFileToAllDestinations
    (path : String) (size : Int) (targetFolder : String)
    (backupPaths remoteBackups : List String) (comp : Compression.Config)
    (dryRun : Bool) (arrival : List String)
    (localOutcome : String → Except String Int)
    (remoteOk : String → String → Bool)
    (r : Result) : Result × List FsOp × Option String :=
  let relPath := relPathOf targetFolder path
  if dryRun then (r, [], none)
  else
    let successes := arrival.filter (localOk localOutcome)
    let localErrors := arrival.filterMap fun bp =>
      match localOutcome bp with
      | Except.error m => some ("backup to " ++ bp ++ ": " ++ m)
      | Except.ok _ => none
    let finalPathOf : String → String := fun bp =>
      Compression.GetDestinationPath (joinPath bp relPath) comp
    let localOps := (successes.map fun bp =>
      [FsOp.mkdirAll (dirOf (joinPath bp relPath)), FsOp.writeFile (finalPathOf bp)]).flatten
    let r1 :=
      if comp.Enabled then
        successes.foldl (fun acc bp =>
          { acc with
            CompressedBytes := acc.CompressedBytes +
              (match localOutcome bp with
               | Except.ok c => c
               | Except.error _ => 0)
            OriginalBytes := acc.OriginalBytes + size }) r
      else r
    match successes with
    | [] =>
      if backupPaths ≠ [] then
        (r1, localOps,
          some (match localErrors with
            | e :: _ => "all local backups failed: " ++ e
            | [] => "all local backups failed"))
      else (r1, localOps, none)
    | bp0 :: _ =>
      let sourcePath := finalPathOf bp0
      let out := remoteLoop remoteOk sourcePath remoteBackups (r1, [])
      (out.1, localOps ++ out.2, none)

/-- The `filepath.Walk` callback loop of Go `RunBackup` in file-by-file mode,
uncancelled: access errors are recorded and the walk continues, directories
are ignored, entries not strictly older than the threshold are skipped, and
each qualifying file goes through `backupFileToAllDestinations`.  A per-file
backup failure is recorded as a `"backup"` error and, when the breaker is
armed and the running failure rate strictly exceeds it, aborts the walk with
`RunErr.thresholdExceeded`; a per-file success adds the file's size and
increments `BackedUp`. -/
def backupWalk (cfg : Config) (env : Env) (dryRun : Bool) (threshold : Int) :
    List Entry → Result → Result × List FsOp × Option RunErr
  | [], r => (r, [], none)
  | e :: rest, r =>
    match e.accessErr with
    | some msg => backupWalk cfg env dryRun threshold rest
        (r.AddError e.path "access" msg)
    | none =>
      if e.isDir then backupWalk cfg env dryRun threshold rest r
      else if e.modTime < threshold then
        let fo := backupFileToAllDestinations e.path e.size cfg.TargetFolder
          cfg.backupPaths cfg.remoteBackups cfg.comp dryRun
          (env.arrival e.path) (env.localOutcome e.path) env.remoteOk r
        match fo.2.2 with
        | some m =>
          let r' := (fo.1).AddError e.path "backup" m
          if 0 < cfg.ErrorThresholdPercent ∧
             cfg.ErrorThresholdPercent < r'.FailureRate
          then (r', fo.2.1, some RunErr.thresholdExceeded)
          else
            let out := backupWalk cfg env dryRun threshold rest r'
            (out.1, fo.2.1 ++ out.2.1, out.2.2)
        | none =>
          let ra := (fo.1).AddSuccess e.size
          let out := backupWalk cfg env dryRun threshold rest
            { ra with BackedUp := ra.BackedUp + 1 }
          (out.1, fo.2.1 ++ out.2.1, out.2.2)
      else backupWalk cfg env dryRun threshold rest
        { r with Skipped := r.Skipped + 1 }

/-- Go `RunBackup` (current `backup.go`, archive mode disabled), uncancelled:
with backup enabled it first calls `os.MkdirAll` on every configured backup
root — before any dry-run check — then runs the file-by-file walk; if the
walk aborted, that error is returned at once.  Regardless of mode it then
prunes over the same threshold, copying the prune counts into the Result
(`Pruned` is assigned, `Failed` added, prune errors appended) and returning
the prune error, if any.  Root-directory creation failure (a fatal
configuration error in Go) is not modelled: `mkdirAll` always succeeds
here, while the operation itself stays observable in the trace. -/
def RunBackup (cfg : Config) (env : Env) (dryRun : Bool) (pruneThreshold : Int)
    (fs : List Entry) : Result × List FsOp × Option RunErr :=
  let bk :=
    if cfg.EnableBackup then
      let mkOps := cfg.backupPaths.map FsOp.mkdirAll
      let w := backupWalk cfg env dryRun pruneThreshold fs NewResult
      (w.1, mkOps ++ w.2.1, w.2.2)
    else (NewResult, ([] : List FsOp), (none : Option RunErr))
  match bk.2.2 with
  | some er => (bk.1, bk.2.1, some er)
  | none =>
    let p := Pruner.PruneFiles fs pruneThreshold cfg.ErrorThresholdPercent dryRun
    let merged := { bk.1 with
      Pruned := p.1.Pruned
      Failed := bk.1.Failed + p.1.Failed
      Errors := bk.1.Errors ++ p.1.Errors }
    (merged, bk.2.1 ++ p.2.1, p.2.2)

end Backup

namespace Archive

/-- Calendar date of a Go `time.Time` reference instant (`year ≥ 1`, `month`
1..12, `day` valid for the month): the only part of the timestamp that
`GenerateArchiveName` reads through `Format` and `ISOWeek`. -/
structure Date where
  year : Nat
  month : Nat
  day : Nat
deriving Repr, DecidableEq

/-- Day number of a civil date, counted from 0000-03-01 (the standard
era-based civil-calendar conversion, shifted so it stays in `Nat`);
1970-01-01 is day 719468. -/
def daysFromCivil (y m d : Nat) : Nat :=
  let y' := if m ≤ 2 then y - 1 else y
  let era := y' / 400
  let yoe := y' % 400
  let mp := (m + 9) % 12
  let doy := (153 * mp + 2) / 5 + d - 1
  let doe := yoe * 365 + yoe / 4 - yoe / 100 + doy
  era * 146097 + doe

/-- Inverse of `daysFromCivil`: the civil `(year, month, day)` of a day
number. -/
def civilFromDays (z : Nat) : Nat × Nat × Nat :=
  let era := z / 146097
  let doe := z % 146097
  let yoe := (doe - doe / 1460 + doe / 36524 - doe / 146096) / 365
  let y' := yoe + era * 400
  let doy := doe - (365 * yoe + yoe / 4 - yoe / 100)
  let mp := (5 * doy + 2) / 153
  let d := doy - (153 * mp + 2) / 5 + 1
  let m := if mp < 10 then mp + 3 else mp - 9
  (if m ≤ 2 then y' + 1 else y', m, d)

/-- ISO weekday of a day number, Monday = 1 .. Sunday = 7
(day 0, 0000-03-01, was a Wednesday). -/
def isoWeekday (z : Nat) : Nat := (z + 2) % 7 + 1

/-- Go `time.Time.ISOWeek` on a date: move to the Thursday of the same
Monday-based week; that Thursday's year is the ISO year and its 0-based
ordinal day divided by 7, plus 1, is the ISO week. -/
def isoWeekOf (t : Date) : Nat × Nat :=
  let z := daysFromCivil t.year t.month t.day
  let th := z + 4 - isoWeekday z
  let c := civilFromDays th
  let week := (th - daysFromCivil c.1 1 1) / 7 + 1
  (c.1, week)

/-- Two-digit zero padding, as in the `%02d` verb and the `01`/`02` layout
fields. -/
def pad2 (n : Nat) : String := if n < 10 then "0" ++ toString n else toString n

/-- Four-digit zero padding, as in the `2006` year layout field. -/
def pad4 (n : Nat) : String :=
  if n < 10 then "000" ++ toString n
  else if n < 100 then "00" ++ toString n
  else if n < 1000 then "0" ++ toString n
  else toString n

/-- Go `t.Format("2006-01-02")` for the date part of `t`. -/
def formatDaily (t : Date) : String :=
  pad4 t.year ++ "-" ++ pad2 t.month ++ "-" ++ pad2 t.day

/-- Go `t.Format("2006-01")` for the date part of `t`. -/
def formatMonthly (t : Date) : String := pad4 t.year ++ "-" ++ pad2 t.month

/-- Go `archive.ExtensionFor` (`Format` is a Go string type; its constants
`"tar"`, `"tar.gz"`, `"zip"` are modelled as the strings themselves, any
other value falling to the `".tar.gz"` default). -/
def ExtensionFor (format : String) : String :=
  if format = "tar" then ".tar"
  else if format = "tar.gz" then ".tar.gz"
  else if format = "zip" then ".zip"
  else ".tar.gz"

/-- Go `archive.GenerateArchiveName`: `backup-` plus a date part — daily
`2006-01-02`, weekly `fmt.Sprintf("%d-W%02d", ISOWeek)`, monthly `2006-01`,
anything else falling to the daily layout — plus the format's extension. -/
def GenerateArchiveName (t : Date) (groupBy format : String) : String :=
  let datePart :=
    if groupBy = "daily" then formatDaily t
    else if groupBy = "weekly" then
      let yw := isoWeekOf t
      toString yw.1 ++ "-W" ++ pad2 yw.2
    else if groupBy = "monthly" then formatMonthly t
    else formatDaily t
  "backup-" ++ datePart ++ ExtensionFor format

/-- Archive configuration from `package archive` (string-typed `Format` and
`GroupBy`, as above). -/
structure Config where
  Enabled : Bool
  Format : String
  GroupBy : String
deriving Repr, DecidableEq

/-- Archive creation statistics, Go `archive.Result`. -/
structure Result where
  ArchivePath : String
  FilesArchived : Int
  TotalSize : Int
  ArchiveSize : Int
deriving Repr, DecidableEq

/-- Go `archive.Creator`: a configuration plus the output directory. -/
structure Creator where
  config : Config
  outputDir : String

/-- The per-entry loop shared by Go `createTarArchive` and
`createZipArchive`: stat each source (`stat` returns size and directory
flag, or `none` for a stat error, which aborts the whole archive); count
and total only regular files (tar writes directory headers and zip skips
directories, but neither counts them). -/
def archiveEntriesLoop (stat : String → Option (Int × Bool)) :
    List (String × String) → Int → Int → Except String (Int × Int)
  | [], n, total => Except.ok (n, total)
  | (src, _) :: rest, n, total =>
    match stat src with
    | none => Except.error ("stat file " ++ src)
    | some sd =>
      if sd.2 then archiveEntriesLoop stat rest n total
      else archiveEntriesLoop stat rest (n + 1) (total + sd.1)

/-- Go `Creator.CreateArchive`: an empty file map returns the zero `Result`
with no error before any I/O; otherwise the format and grouping are
defaulted (`tar.gz`, `daily`), the archive is deterministically named and
placed under the output directory (`os.MkdirAll` then `os.Create`, both in
the trace — `os.Create` precedes the entry loop, so the container file
exists even when a stat error aborts creation), and the entry loop fills the
statistics.  The byte-level tar/gzip/zip codecs are an external capability;
the size of the produced container (which Go reads back with `os.Stat`) is
the environment parameter `containerSize`.  Go map iteration order is
unspecified; the entry list fixes one order. -/
def CreateArchive (c : Creator) (files : List (String × String))
    (archiveTime : Date) (stat : String → Option (Int × Bool))
    (containerSize : Int) : Except String Result × List FsOp :=
  if files.isEmpty then (Except.ok ⟨"", 0, 0, 0⟩, [])
  else
    let format := if c.config.Format = "" then "tar.gz" else c.config.Format
    let groupBy := if c.config.GroupBy = "" then "daily" else c.config.GroupBy
    let archiveName := GenerateArchiveName archiveTime groupBy format
    let archivePath := joinPath c.outputDir archiveName
    let pre := [FsOp.mkdirAll c.outputDir, FsOp.writeFile archivePath]
    match archiveEntriesLoop stat files 0 0 with
    | Except.error m => (Except.error m, pre)
    | Except.ok nt =>
      (Except.ok ⟨archivePath, nt.1, nt.2, containerSize⟩, pre)

end Archive

/-! Theorems.  Each claim Cn of the specification review is settled by the
correspondingly named theorem below (with witness and counterexample
theorems where applicable). -/

/-- C7: `FailureRate` is `Failed / (Succeeded + Failed) * 100`, is 0 when the
denominator `Succeeded + Failed` is 0, and skipped files never enter the
denominator (changing `Skipped` never changes the rate); likewise for the
pruner's `Result`, whose success count is `Pruned`. -/
theorem C7_failure_rate_formula :
    (∀ r : Backup.Result,
      (r.Succeeded + r.Failed = 0 → r.FailureRate = 0) ∧
      (r.Succeeded + r.Failed ≠ 0 →
        r.FailureRate = (r.Failed : ℚ) / ((r.Succeeded : ℚ) + (r.Failed : ℚ)) * 100) ∧
      ∀ k, Backup.Result.FailureRate { r with Skipped := k } = r.FailureRate) ∧
    (∀ r : Pruner.Result,
      (r.Pruned + r.Failed = 0 → r.FailureRate = 0) ∧
      (r.Pruned + r.Failed ≠ 0 →
        r.FailureRate = (r.Failed : ℚ) / ((r.Pruned : ℚ) + (r.Failed : ℚ)) * 100) ∧
      ∀ k, Pruner.Result.FailureRate { r with Skipped := k } = r.FailureRate) := by
  constructor
  · intro r
    refine ⟨fun h => ?_, fun h => ?_, fun k => ?_⟩
    · simp [Backup.Result.FailureRate, h]
    · simp only [Backup.Result.FailureRate, h, if_false, if_neg h]
      push_cast
      ring
    · simp [Backup.Result.FailureRate]
  · intro r
    refine ⟨fun h => ?_, fun h => ?_, fun k => ?_⟩
    · simp [Pruner.Result.FailureRate, h]
    · simp only [Pruner.Result.FailureRate, h, if_false, if_neg h]
      push_cast
      ring
    · simp [Pruner.Result.FailureRate]

/-- Witness for C7 at a concrete Result: one success and one failure give a
50 percent failure rate. -/
theorem C7_witness :
    ({ Backup.NewResult with Succeeded := 1, Failed := 1 } : Backup.Result).FailureRate
      = (1 : ℚ) / (1 + 1) * 100 := by
  have h := (C7_failure_rate_formula.1
    { Backup.NewResult with Succeeded := 1, Failed := 1 }).2.1 (by decide)
  simpa [Backup.NewResult] using h

/-- C10: `Failed` always equals the length of `Errors`: `NewResult`
establishes the invariant, `AddError` preserves it (exactly one error
appended, `Failed` incremented by one), a `Merge` of two Results satisfying
it satisfies it, and the pruner's `NewResult`/`AddError` behave the same
way. -/
theorem C10_failed_eq_errors_length :
    (Backup.NewResult.Failed = (Backup.NewResult.Errors.length : Int)) ∧
    (∀ (r : Backup.Result) p o e, r.Failed = (r.Errors.length : Int) →
      (r.AddError p o e).Failed = ((r.AddError p o e).Errors.length : Int) ∧
      (r.AddError p o e).Errors.length = r.Errors.length + 1 ∧
      (r.AddError p o e).Failed = r.Failed + 1) ∧
    (∀ a b : Backup.Result, a.Failed = (a.Errors.length : Int) →
      b.Failed = (b.Errors.length : Int) →
      (a.Merge b).Failed = ((a.Merge b).Errors.length : Int)) ∧
    (Pruner.NewResult.Failed = (Pruner.NewResult.Errors.length : Int)) ∧
    (∀ (r : Pruner.Result) p o e, r.Failed = (r.Errors.length : Int) →
      (r.AddError p o e).Failed = ((r.AddError p o e).Errors.length : Int)) := by
  refine ⟨rfl, ?_, ?_, rfl, ?_⟩
  · intro r p o e h
    refine ⟨?_, by simp [Backup.Result.AddError], by simp [Backup.Result.AddError]⟩
    simp [Backup.Result.AddError, h]
  · intro a b ha hb
    simp [Backup.Result.Merge, ha, hb]
  · intro r p o e h
    simp [Pruner.Result.AddError, h]

/-- Witness for C10 at concrete Results: merging two one-error Results gives
two failures and two recorded errors. -/
theorem C10_witness :
    ((Backup.NewResult.AddError "a.log" "backup" "e1").Merge
        (Backup.NewResult.AddError "b.log" "prune" "e2")).Failed
      = (((Backup.NewResult.AddError "a.log" "backup" "e1").Merge
        (Backup.NewResult.AddError "b.log" "prune" "e2")).Errors.length : Int) :=
  C10_failed_eq_errors_length.2.2.1 _ _ (by decide) (by decide)

/-- C6 counterexample: `Merge` is not commutative.  Two Results each carrying
one recorded error merge to different Results in the two orders (the error
lists concatenate receiver-first). -/
theorem C6_counterexample :
    (Backup.NewResult.AddError "a.log" "backup" "e1").Merge
        (Backup.NewResult.AddError "b.log" "prune" "e2")
      ≠ (Backup.NewResult.AddError "b.log" "prune" "e2").Merge
        (Backup.NewResult.AddError "a.log" "backup" "e1") := by
  decide

/-- C6 (amended): `Merge` is associative, every numeric field is summed (and
so commutes in isolation), the error lists concatenate receiver-first, and
the kept `ArchivePath` is the first non-empty one in argument order — so
`Merge` itself is not commutative. -/
theorem C6_merge_associative :
    ∀ a b c : Backup.Result,
      (a.Merge b).Merge c = a.Merge (b.Merge c) ∧
      (a.Merge b).Succeeded = (b.Merge a).Succeeded ∧
      (a.Merge b).Failed = (b.Merge a).Failed ∧
      (a.Merge b).Skipped = (b.Merge a).Skipped ∧
      (a.Merge b).TotalBytes = (b.Merge a).TotalBytes ∧
      (a.Merge b).BackedUp = (b.Merge a).BackedUp ∧
      (a.Merge b).Pruned = (b.Merge a).Pruned ∧
      (a.Merge b).RemoteCopied = (b.Merge a).RemoteCopied ∧
      (a.Merge b).OriginalBytes = (b.Merge a).OriginalBytes ∧
      (a.Merge b).CompressedBytes = (b.Merge a).CompressedBytes ∧
      (a.Merge b).ArchiveSize = (b.Merge a).ArchiveSize ∧
      (a.Merge b).Errors = a.Errors ++ b.Errors ∧
      (a.Merge b).ArchivePath
        = (if a.ArchivePath = "" then b.ArchivePath else a.ArchivePath) := by
  intro a b c
  refine ⟨?_, by simp [Backup.Result.Merge]; ring, by simp [Backup.Result.Merge]; ring,
    by simp [Backup.Result.Merge]; ring, by simp [Backup.Result.Merge]; ring,
    by simp [Backup.Result.Merge]; ring, by simp [Backup.Result.Merge]; ring,
    by simp [Backup.Result.Merge]; ring, by simp [Backup.Result.Merge]; ring,
    by simp [Backup.Result.Merge]; ring, by simp [Backup.Result.Merge]; ring,
    by simp [Backup.Result.Merge], ?_⟩
  · ext <;> simp [Backup.Result.Merge]
    · ring
    · ring
    · ring
    · ring
    · ring
    · ring
    · ring
    · ring
    · ring
    · ring
    · by_cases ha : a.ArchivePath = "" <;> by_cases hb : b.ArchivePath = "" <;>
        by_cases hc : c.ArchivePath = "" <;> simp [ha, hb, hc]
  · by_cases ha : a.ArchivePath = "" <;> by_cases hb : b.ArchivePath = "" <;>
      simp [Backup.Result.Merge, ha, hb]

/-- C8: for every archive configuration, output directory, reference time and
filesystem, `CreateArchive` on an empty file map returns the zero `Result`
(empty path, zero counts and sizes), no error, and performs no filesystem
operation at all — in particular it creates no archive file. -/
theorem C8_create_archive_empty :
    ∀ (c : Archive.Creator) (t : Archive.Date)
      (stat : String → Option (Int × Bool)) (containerSize : Int),
      Archive.CreateArchive c [] t stat containerSize
        = (Except.ok { ArchivePath := "", FilesArchived := 0,
                       TotalSize := 0, ArchiveSize := 0 }, ([] : List FsOp)) := by
  intro c t stat containerSize
  rfl

/-- C9: `GenerateArchiveName` is deterministic in `(referenceTime, groupBy,
format)`, and produces `backup-` followed by the zero-padded `YYYY-MM-DD`
(daily), the ISO week `YYYY-Www` (weekly, week zero-padded to two digits),
or `YYYY-MM` (monthly), followed by the format's extension (`.tar`,
`.tar.gz` or `.zip`); the concrete anchors are the repository's own test
vectors for 2026-01-24, which falls in ISO week 2026-W04. -/
theorem C9_generate_archive_name :
    (∀ (t t' : Archive.Date) (g g' f f' : String), t = t' → g = g' → f = f' →
      Archive.GenerateArchiveName t g f = Archive.GenerateArchiveName t' g' f') ∧
    (∀ t f, Archive.GenerateArchiveName t "daily" f
      = "backup-" ++ Archive.pad4 t.year ++ "-" ++ Archive.pad2 t.month ++ "-"
          ++ Archive.pad2 t.day ++ Archive.ExtensionFor f) ∧
    (∀ t f, Archive.GenerateArchiveName t "weekly" f
      = "backup-" ++ toString (Archive.isoWeekOf t).1 ++ "-W"
          ++ Archive.pad2 (Archive.isoWeekOf t).2 ++ Archive.ExtensionFor f) ∧
    (∀ t f, Archive.GenerateArchiveName t "monthly" f
      = "backup-" ++ Archive.pad4 t.year ++ "-" ++ Archive.pad2 t.month
          ++ Archive.ExtensionFor f) ∧
    (Archive.ExtensionFor "tar" = ".tar" ∧ Archive.ExtensionFor "tar.gz" = ".tar.gz" ∧
      Archive.ExtensionFor "zip" = ".zip") ∧
    (Archive.GenerateArchiveName ⟨2026, 1, 24⟩ "daily" "tar.gz" = "backup-2026-01-24.tar.gz" ∧
      Archive.GenerateArchiveName ⟨2026, 1, 24⟩ "weekly" "tar.gz" = "backup-2026-W04.tar.gz" ∧
      Archive.GenerateArchiveName ⟨2026, 1, 24⟩ "monthly" "tar.gz" = "backup-2026-01.tar.gz" ∧
      Archive.GenerateArchiveName ⟨2026, 1, 24⟩ "daily" "tar" = "backup-2026-01-24.tar" ∧
      Archive.GenerateArchiveName ⟨2026, 1, 24⟩ "daily" "zip" = "backup-2026-01-24.zip") := by
  refine ⟨?_, ?_, ?_, ?_, by decide, by decide⟩
  · intro t t' g g' f f' ht hg hf
    rw [ht, hg, hf]
  · intro t f
    simp [Archive.GenerateArchiveName, Archive.formatDaily, String.append_assoc]
  · intro t f
    have hne : ("weekly" : String) = "daily" ↔ False := by simp
    simp [Archive.GenerateArchiveName, hne, String.append_assoc]
  · intro t f
    have h1 : ("monthly" : String) = "daily" ↔ False := by simp
    have h2 : ("monthly" : String) = "weekly" ↔ False := by simp
    simp [Archive.GenerateArchiveName, Archive.formatMonthly, h1, h2, String.append_assoc]

/-- Witness for C9's determinism clause at a concrete input. -/
theorem C9_witness :
    Archive.GenerateArchiveName ⟨2026, 1, 24⟩ "weekly" "tar.gz"
      = Archive.GenerateArchiveName ⟨2026, 1, 24⟩ "weekly" "tar.gz" :=
  C9_generate_archive_name.1 ⟨2026, 1, 24⟩ ⟨2026, 1, 24⟩ "weekly" "weekly"
    "tar.gz" "tar.gz" rfl rfl rfl

/-- Helper: with `errorThresholdPercent = 0` the breaker condition
`0 < 0 ∧ _` is unsatisfiable, so the prune walk never aborts. -/
theorem pruneWalk_zero_threshold_no_error (cutoff : Int) (dryRun : Bool) :
    ∀ (l : List Entry) (r : Pruner.Result),
      (Pruner.pruneWalk cutoff 0 dryRun l r).2.2 = none := by
  intro l
  induction l with
  | nil => intro r; rfl
  | cons e rest ih =>
    intro r
    rw [Pruner.pruneWalk]
    split
    · exact ih _
    · split
      · exact ih _
      · split
        · split
          · exact ih _
          · split
            · rw [if_neg (by norm_num)]
              exact ih _
            · exact ih _
        · exact ih _

/-- C5: in the prune walk, after a deletion failure is recorded the walk
aborts with the distinguished `thresholdExceeded` error exactly when the
breaker is armed (`errorThresholdPercent > 0`) and the running failure rate
strictly exceeds it — and the Result and operation trace returned with the
error are exactly those accumulated up to that point, nothing further being
processed; otherwise the walk continues past the recorded failure.  With
`errorThresholdPercent = 0` the breaker is disabled: `PruneFiles` never
returns the threshold error. -/
theorem C5_prune_threshold_breaker :
    (∀ (cutoff : Int) (pct : ℚ) (e : Entry) (rest : List Entry)
       (r : Pruner.Result) (m : String),
      e.accessErr = none → e.isDir = false → e.modTime < cutoff →
      e.removeFails = some m →
      (0 < pct ∧ pct < (r.AddError e.path "prune" m).FailureRate →
        Pruner.pruneWalk cutoff pct false (e :: rest) r
          = (r.AddError e.path "prune" m, [], some RunErr.thresholdExceeded)) ∧
      (¬(0 < pct ∧ pct < (r.AddError e.path "prune" m).FailureRate) →
        Pruner.pruneWalk cutoff pct false (e :: rest) r
          = Pruner.pruneWalk cutoff pct false rest (r.AddError e.path "prune" m))) ∧
    (∀ (fs : List Entry) (cutoff : Int) (dryRun : Bool),
      (Pruner.PruneFiles fs cutoff 0 dryRun).2.2 = none) := by
  refine ⟨fun cutoff pct e rest r m he hd hm hrf => ⟨fun hc => ?_, fun hc => ?_⟩,
    fun fs cutoff dryRun => pruneWalk_zero_threshold_no_error cutoff dryRun fs _⟩
  · rw [Pruner.pruneWalk, he, hd]
    simp only [Bool.false_eq_true, if_false, if_pos hm, hrf, if_pos hc]
  · rw [Pruner.pruneWalk, he, hd]
    simp only [Bool.false_eq_true, if_false, if_pos hm, hrf, if_neg hc]

/-- Witness for C5 at a concrete input: one deletion failure out of one
attempt is a 100 percent failure rate, which exceeds the armed 50 percent
threshold, so the walk aborts at once with the distinguished error and the
one-failure Result. -/
theorem C5_witness :
    Pruner.PruneFiles
        [{ path := "f.log", isDir := false, modTime := 0, size := 5,
           accessErr := none, removeFails := some "device busy" }] 10 50 false
      = (Pruner.NewResult.AddError "f.log" "prune" "device busy", [],
         some RunErr.thresholdExceeded) := by
  refine (C5_prune_threshold_breaker.1 10 50
      { path := "f.log", isDir := false, modTime := 0, size := 5,
        accessErr := none, removeFails := some "device busy" } []
      Pruner.NewResult "device busy" rfl rfl (by norm_num) rfl).1 ⟨by norm_num, ?_⟩
  norm_num [Pruner.Result.AddError, Pruner.NewResult, Pruner.Result.FailureRate]

/-- Helper: a goroutine reports failure exactly when its outcome is an
error message. -/
theorem localOk_eq_false_iff (f : String → Except String Int) (bp : String) :
    Backup.localOk f bp = false ↔ ∃ m, f bp = Except.error m := by
  cases h : f bp <;> simp [Backup.localOk, h]

/-- C3: with at least one local destination configured, replication of one
file returns an error exactly when every local destination attempt failed;
in particular one successful local destination keeps the file's replication
successful whatever the other destinations did.  `arrival` ranges over the
goroutine completion orders, i.e. the permutations of the destination
list. -/
theorem C3_replication_error_iff_all_local_failed :
    ∀ (path : String) (size : Int) (targetFolder : String)
      (backupPaths remoteBackups : List String) (comp : Compression.Config)
      (arrival : List String) (localOutcome : String → Except String Int)
      (remoteOk : String → String → Bool) (r : Backup.Result),
      arrival.Perm backupPaths →
      ((Backup.backupFileToAllDestinations path size targetFolder backupPaths
          remoteBackups comp false arrival localOutcome remoteOk r).2.2.isSome
        ↔ backupPaths ≠ [] ∧
            ∀ bp ∈ backupPaths, ∃ m, localOutcome bp = Except.error m) := by
  intro path size targetFolder backupPaths remoteBackups comp arrival
    localOutcome remoteOk r hperm
  cases hfilter : arrival.filter (Backup.localOk localOutcome) with
  | nil =>
    simp only [Backup.backupFileToAllDestinations, Bool.false_eq_true, if_false,
      hfilter]
    by_cases hbp : backupPaths = []
    · simp [hbp]
    · simp only [ne_eq, hbp, not_false_iff, if_true, Option.isSome_some,
        true_iff, true_and]
      intro bp hmem
      rw [← localOk_eq_false_iff]
      have hall := List.filter_eq_nil_iff.mp hfilter
      exact Bool.not_eq_true _ ▸ hall bp (hperm.mem_iff.mpr hmem)
  | cons bp0 tl =>
    simp only [Backup.backupFileToAllDestinations, Bool.false_eq_true, if_false,
      hfilter]
    have hmem : bp0 ∈ arrival.filter (Backup.localOk localOutcome) := by
      rw [hfilter]; exact List.mem_cons_self bp0 tl
    have hok : Backup.localOk localOutcome bp0 = true := (List.mem_filter.mp hmem).2
    have hin : bp0 ∈ backupPaths :=
      hperm.mem_iff.mp (List.mem_filter.mp hmem).1
    simp only [Option.isSome_none, Bool.false_eq_true, false_iff, not_and, ne_eq]
    intro _ hall
    obtain ⟨m, hm⟩ := hall bp0 hin
    simp [Backup.localOk, hm] at hok

/-- Witness for C3 at a concrete input: with one succeeding and one failing
local destination, replication of the file does not fail. -/
theorem C3_witness :
    ¬ (Backup.backupFileToAllDestinations "t/a.log" 5 "t" ["good", "bad"] []
        { Enabled := false, Algorithm := "none", Level := 6 } false ["good", "bad"]
        (fun bp => if bp = "good" then Except.ok 3 else Except.error "boom")
        (fun _ _ => false) Backup.NewResult).2.2.isSome := by
  have h := C3_replication_error_iff_all_local_failed "t/a.log" 5 "t"
      ["good", "bad"] [] { Enabled := false, Algorithm := "none", Level := 6 }
      ["good", "bad"]
      (fun bp => if bp = "good" then Except.ok 3 else Except.error "boom")
      (fun _ _ => false) Backup.NewResult (List.Perm.refl _)
  intro hs
  obtain ⟨-, hall⟩ := h.mp hs
  obtain ⟨m, hm⟩ := hall "good" (by simp)
  simp at hm

/-- Helper: every operation the sequential remote loop emits beyond its
accumulator is a transport invocation from the fixed `sourcePath`. -/
theorem remoteLoop_ops_mem (remoteOk : String → String → Bool) (sourcePath : String) :
    ∀ (l : List String) (acc : Backup.Result × List FsOp) (op : FsOp),
      op ∈ (Backup.remoteLoop remoteOk sourcePath l acc).2 →
      op ∈ acc.2 ∨ ∃ rm, op = FsOp.remoteCopy sourcePath rm := by
  intro l
  induction l with
  | nil => intro acc op h; exact Or.inl h
  | cons rm rest ih =>
    intro acc op h
    rw [Backup.remoteLoop] at h
    by_cases hok : remoteOk sourcePath rm
    · rw [if_pos hok] at h
      rcases ih _ op h with hmem | hex
      · rcases List.mem_append.mp hmem with h1 | h2
        · exact Or.inl h1
        · exact Or.inr ⟨rm, List.mem_singleton.mp h2⟩
      · exact Or.inr hex
    · rw [if_neg hok] at h
      exact ih _ op h

/-- C4 (amended): every remote copy of a file's replication ships the
post-compression artifact (`GetDestinationPath` of the destination-joined
relative path — never the pre-compression original) of the *first drained*
successful local destination; that choice is the goroutine completion
order's first success, which the counterexample shows is not a deterministic
function of the per-destination outcomes. -/
theorem C4_remote_source_first_drained :
    ∀ (path : String) (size : Int) (targetFolder : String)
      (backupPaths remoteBackups : List String) (comp : Compression.Config)
      (arrival : List String) (localOutcome : String → Except String Int)
      (remoteOk : String → String → Bool) (r : Backup.Result)
      (bp0 : String) (tl : List String),
      arrival.filter (Backup.localOk localOutcome) = bp0 :: tl →
      ∀ s rm, FsOp.remoteCopy s rm ∈
          (Backup.backupFileToAllDestinations path size targetFolder backupPaths
            remoteBackups comp false arrival localOutcome remoteOk r).2.1 →
        s = Compression.GetDestinationPath
              (joinPath bp0 (relPathOf targetFolder path)) comp ∧
        Backup.localOk localOutcome bp0 = true := by
  intro path size targetFolder backupPaths remoteBackups comp arrival
    localOutcome remoteOk r bp0 tl hfilter s rm hmem
  have hok : Backup.localOk localOutcome bp0 = true := by
    have : bp0 ∈ arrival.filter (Backup.localOk localOutcome) := by
      rw [hfilter]; exact List.mem_cons_self bp0 tl
    exact (List.mem_filter.mp this).2
  refine ⟨?_, hok⟩
  simp only [Backup.backupFileToAllDestinations, Bool.false_eq_true, if_false,
    hfilter] at hmem
  rcases List.mem_append.mp hmem with hloc | hrem
  · exfalso
    rcases List.mem_flatten.mp hloc with ⟨ops, hops, hop⟩
    rcases List.mem_map.mp hops with ⟨bp, _, rfl⟩
    simp at hop
  · rcases remoteLoop_ops_mem remoteOk _ remoteBackups _ _ hrem with h0 | hex
    · simp at h0
    · obtain ⟨rm', heq⟩ := hex
      exact (FsOp.remoteCopy.injEq _ _ _ _).mp heq |>.1

/-- C4 counterexample: the choice of remote-copy source is not deterministic
from configuration and per-destination outcomes.  Two runs with identical
destinations, identical (all-success) outcomes and identical remote targets,
differing only in goroutine completion order, produce observably different
runs — one ships `d1/old.log.gz`, the other `d2/old.log.gz`. -/
theorem C4_counterexample :
    Backup.backupFileToAllDestinations "t/old.log" 7 "t" ["d1", "d2"]
        ["user@host:/x"] { Enabled := true, Algorithm := "gzip", Level := 6 }
        false ["d1", "d2"] (fun _ => Except.ok 3) (fun _ _ => true)
        Backup.NewResult
      ≠ Backup.backupFileToAllDestinations "t/old.log" 7 "t" ["d1", "d2"]
        ["user@host:/x"] { Enabled := true, Algorithm := "gzip", Level := 6 }
        false ["d2", "d1"] (fun _ => Except.ok 3) (fun _ _ => true)
        Backup.NewResult := by
  decide

/-- Witness for C4 at a concrete input: with completion order `d1` before
`d2` and both succeeding, the remote copy ships the compressed artifact
`d1/old.log.gz` of the first drained success `d1`. -/
theorem C4_witness :
    "d1/old.log.gz" = Compression.GetDestinationPath
        (joinPath "d1" (relPathOf "t" "t/old.log"))
        { Enabled := true, Algorithm := "gzip", Level := 6 } ∧
      Backup.localOk (fun _ => Except.ok 3) "d1" = true :=
  C4_remote_source_first_drained "t/old.log" 7 "t" ["d1", "d2"]
    ["user@host:/x"] { Enabled := true, Algorithm := "gzip", Level := 6 }
    ["d1", "d2"] (fun _ => Except.ok 3) (fun _ _ => true) Backup.NewResult
    "d1" ["d2"] (by decide) "d1/old.log.gz" "user@host:/x" (by decide)

/-- Helper: replicating one file never deletes anything — its trace holds
only directory creations, artifact writes and transport invocations. -/
theorem backupFile_ops_no_remove
    (path : String) (size : Int) (targetFolder : String)
    (backupPaths remoteBackups : List String) (comp : Compression.Config)
    (dryRun : Bool) (arrival : List String)
    (localOutcome : String → Except String Int)
    (remoteOk : String → String → Bool) (r : Backup.Result) (p : String) :
    FsOp.remove p ∉
      (Backup.backupFileToAllDestinations path size targetFolder backupPaths
        remoteBackups comp dryRun arrival localOutcome remoteOk r).2.1 := by
  cases dryRun with
  | true => intro h; simp [Backup.backupFileToAllDestinations] at h
  | false =>
    intro h
    simp only [Backup.backupFileToAllDestinations, Bool.false_eq_true, if_false] at h
    rcases hfilter : arrival.filter (Backup.localOk localOutcome) with _ | ⟨bp0, tl⟩ <;>
      rw [hfilter] at h
    · rcases hbp : backupPaths with _ | _ <;> simp [hbp] at h
    · rcases List.mem_append.mp h with hloc | hrem
      · rcases List.mem_flatten.mp hloc with ⟨ops, hops, hop⟩
        rcases List.mem_map.mp hops with ⟨bp, _, rfl⟩
        simp at hop
      · rcases remoteLoop_ops_mem remoteOk _ remoteBackups _ _ hrem with h0 | hex
        · simp at h0
        · obtain ⟨rm', heq⟩ := hex
          exact FsOp.noConfusion heq

/-- Helper: in dry-run, replicating one file is the identity on the Result
and performs nothing. -/
theorem backupFile_dry
    (path : String) (size : Int) (targetFolder : String)
    (backupPaths remoteBackups : List String) (comp : Compression.Config)
    (arrival : List String) (localOutcome : String → Except String Int)
    (remoteOk : String → String → Bool) (r : Backup.Result) :
    Backup.backupFileToAllDestinations path size targetFolder backupPaths
      remoteBackups comp true arrival localOutcome remoteOk r = (r, [], none) := rfl

/-- Helper: the backup walk never deletes anything. -/
theorem backupWalk_ops_no_remove (cfg : Backup.Config) (env : Backup.Env)
    (dryRun : Bool) (threshold : Int) (p : String) :
    ∀ (l : List Entry) (r : Backup.Result),
      FsOp.remove p ∉ (Backup.backupWalk cfg env dryRun threshold l r).2.1 := by
  intro l
  induction l with
  | nil => intro r h; simp [Backup.backupWalk] at h
  | cons e rest ih =>
    intro r h
    rw [Backup.backupWalk] at h
    split at h
    · exact ih _ h
    · split at h
      · exact ih _ h
      · split at h
        · dsimp only at h
          split at h
          · split at h
            · exact backupFile_ops_no_remove _ _ _ _ _ _ _ _ _ _ _ _ h
            · rcases List.mem_append.mp h with h1 | h2
              · exact backupFile_ops_no_remove _ _ _ _ _ _ _ _ _ _ _ _ h1
              · exact ih _ h2
          · rcases List.mem_append.mp h with h1 | h2
            · exact backupFile_ops_no_remove _ _ _ _ _ _ _ _ _ _ _ _ h1
            · exact ih _ h2
        · exact ih _ h

/-- Helper: in dry-run the backup walk performs no operation. -/
theorem backupWalk_dry_ops (cfg : Backup.Config) (env : Backup.Env) (threshold : Int) :
    ∀ (l : List Entry) (r : Backup.Result),
      (Backup.backupWalk cfg env true threshold l r).2.1 = [] := by
  intro l
  induction l with
  | nil => intro r; rfl
  | cons e rest ih =>
    intro r
    rw [Backup.backupWalk]
    split
    · exact ih _
    · split
      · exact ih _
      · split
        · dsimp only
          rw [backupFile_dry]
          dsimp only
          simp [ih]
        · exact ih _

/-- Helper: in dry-run the backup walk never aborts. -/
theorem backupWalk_dry_err (cfg : Backup.Config) (env : Backup.Env) (threshold : Int) :
    ∀ (l : List Entry) (r : Backup.Result),
      (Backup.backupWalk cfg env true threshold l r).2.2 = none := by
  intro l
  induction l with
  | nil => intro r; rfl
  | cons e rest ih =>
    intro r
    rw [Backup.backupWalk]
    split
    · exact ih _
    · split
      · exact ih _
      · split
        · dsimp only
          rw [backupFile_dry]
          dsimp only
          exact ih _
        · exact ih _

/-- Helper: in dry-run the prune walk performs no operation (the delete
primitive is never invoked). -/
theorem pruneWalk_dry_ops (cutoff : Int) (pct : ℚ) :
    ∀ (l : List Entry) (r : Pruner.Result),
      (Pruner.pruneWalk cutoff pct true l r).2.1 = [] := by
  intro l
  induction l with
  | nil => intro r; rfl
  | cons e rest ih =>
    intro r
    rw [Pruner.pruneWalk]
    split
    · exact ih _
    · split
      · exact ih _
      · split
        · simp only [if_true]
          exact ih _
        · exact ih _

/-- Helper: in dry-run the prune walk never aborts. -/
theorem pruneWalk_dry_err (cutoff : Int) (pct : ℚ) :
    ∀ (l : List Entry) (r : Pruner.Result),
      (Pruner.pruneWalk cutoff pct true l r).2.2 = none := by
  intro l
  induction l with
  | nil => intro r; rfl
  | cons e rest ih =>
    intro r
    rw [Pruner.pruneWalk]
    split
    · exact ih _
    · split
      · exact ih _
      · split
        · simp only [if_true]
          exact ih _
        · exact ih _

/-- Helper (soundness): every `remove` the prune walk performs targets a
regular, accessible entry of the walked list that is strictly older than the
cutoff and whose deletion succeeds. -/
theorem pruneWalk_remove_sound (cutoff : Int) (pct : ℚ) (dryRun : Bool) (p : String) :
    ∀ (l : List Entry) (r : Pruner.Result),
      FsOp.remove p ∈ (Pruner.pruneWalk cutoff pct dryRun l r).2.1 →
      ∃ e, e ∈ l ∧ e.path = p ∧ e.isDir = false ∧ e.accessErr = none ∧
        e.modTime < cutoff ∧ e.removeFails = none := by
  intro l
  induction l with
  | nil => intro r h; simp [Pruner.pruneWalk] at h
  | cons e0 rest ih =>
    intro r h
    rw [Pruner.pruneWalk] at h
    split at h
    · obtain ⟨e', hmem, hrest⟩ := ih _ h
      exact ⟨e', List.mem_cons_of_mem _ hmem, hrest⟩
    · rename_i hacc
      split at h
      · obtain ⟨e', hmem, hrest⟩ := ih _ h
        exact ⟨e', List.mem_cons_of_mem _ hmem, hrest⟩
      · rename_i hdir
        split at h
        · rename_i hmt
          split at h
          · obtain ⟨e', hmem, hrest⟩ := ih _ h
            exact ⟨e', List.mem_cons_of_mem _ hmem, hrest⟩
          · split at h
            · dsimp only at h
              split at h
              · simp at h
              · obtain ⟨e', hmem, hrest⟩ := ih _ h
                exact ⟨e', List.mem_cons_of_mem _ hmem, hrest⟩
            · rename_i hrf
              dsimp only at h
              rcases List.mem_cons.mp h with heq | hmem
              · refine ⟨e0, List.mem_cons_self _ _,
                  ((FsOp.remove.injEq _ _).mp heq).symm,
                  (Bool.not_eq_true _).mp hdir, hacc, hmt, hrf⟩
              · obtain ⟨e', hmem', hrest⟩ := ih _ hmem
                exact ⟨e', List.mem_cons_of_mem _ hmem', hrest⟩
        · obtain ⟨e', hmem, hrest⟩ := ih _ h
          exact ⟨e', List.mem_cons_of_mem _ hmem, hrest⟩

/-- Helper (completeness): when the (non-dry) prune walk finishes without a
threshold abort, every regular, accessible, removable entry of the walked
list that is strictly older than the cutoff gets removed — whatever the
accumulated Result was, and in particular regardless of any backup
outcome. -/
theorem pruneWalk_remove_complete (cutoff : Int) (pct : ℚ) :
    ∀ (l : List Entry) (r : Pruner.Result),
      (Pruner.pruneWalk cutoff pct false l r).2.2 = none →
      ∀ e ∈ l, e.isDir = false → e.accessErr = none → e.removeFails = none →
        e.modTime < cutoff →
        FsOp.remove e.path ∈ (Pruner.pruneWalk cutoff pct false l r).2.1 := by
  intro l
  induction l with
  | nil => intro r _ e he; simp at he
  | cons e0 rest ih =>
    intro r herr e he hdir hacc hrf hmt
    rcases List.mem_cons.mp he with rfl | hmem
    · rw [Pruner.pruneWalk]
      simp only [hacc, hdir, Bool.false_eq_true, if_false, if_pos hmt, hrf]
      exact List.mem_cons_self _ _
    · rw [Pruner.pruneWalk] at herr ⊢
      cases hacc0 : e0.accessErr with
      | some m =>
        simp only [hacc0] at herr ⊢
        exact ih _ herr e hmem hdir hacc hrf hmt
      | none =>
        simp only [hacc0] at herr ⊢
        by_cases hdir0 : e0.isDir
        · simp only [hdir0, if_true] at herr ⊢
          exact ih _ herr e hmem hdir hacc hrf hmt
        · simp only [hdir0, if_false, Bool.false_eq_true] at herr ⊢
          by_cases hmt0 : e0.modTime < cutoff
          · simp only [if_pos hmt0] at herr ⊢
            cases hrf0 : e0.removeFails with
            | some m =>
              simp only [hrf0] at herr ⊢
              split at herr
              · simp at herr
              · rename_i hcond
                rw [if_neg hcond]
                exact ih _ herr e hmem hdir hacc hrf hmt
            | none =>
              simp only [hrf0] at herr ⊢
              exact List.mem_cons_of_mem _ (ih _ herr e hmem hdir hacc hrf hmt)
          · simp only [if_neg hmt0] at herr ⊢
            exact ih _ herr e hmem hdir hacc hrf hmt

/-- C1 (amended): the only deletions a run performs are by the prune phase,
and they are exactly the regular, accessible, removable entries strictly
older than the cutoff — *regardless of the backup phase's per-file outcome*:
(soundness) every `remove` in a run's trace targets such an entry, and
(completeness) when the run returns no threshold error, every such entry is
removed, whether its backup succeeded, hard-failed, or (backup disabled)
never happened.  The counterexample below shows the original claim's
"backup hard-failed files are not deleted" is false of the code. -/
theorem C1_prune_deletes_old_files_regardless_of_backup :
    ∀ (cfg : Backup.Config) (env : Backup.Env) (cutoff : Int) (fs : List Entry),
      (∀ (dryRun : Bool) (p : String),
        FsOp.remove p ∈ (Backup.RunBackup cfg env dryRun cutoff fs).2.1 →
        ∃ e, e ∈ fs ∧ e.path = p ∧ e.isDir = false ∧ e.accessErr = none ∧
          e.modTime < cutoff ∧ e.removeFails = none) ∧
      ((Backup.RunBackup cfg env false cutoff fs).2.2 = none →
        ∀ e ∈ fs, e.isDir = false → e.accessErr = none → e.removeFails = none →
          e.modTime < cutoff →
          FsOp.remove e.path ∈ (Backup.RunBackup cfg env false cutoff fs).2.1) := by
  intro cfg env cutoff fs
  constructor
  · intro dryRun p hp
    by_cases hE : cfg.EnableBackup = true
    · simp only [Backup.RunBackup, hE, if_true] at hp
      split at hp
      · rcases List.mem_append.mp hp with h1 | h2
        · exfalso
          rcases List.mem_map.mp h1 with ⟨bp, _, heq⟩
          exact FsOp.noConfusion heq
        · exact absurd h2 (backupWalk_ops_no_remove cfg env dryRun cutoff p fs _)
      · rcases List.mem_append.mp hp with h1 | h2
        · rcases List.mem_append.mp h1 with h1a | h1b
          · exfalso
            rcases List.mem_map.mp h1a with ⟨bp, _, heq⟩
            exact FsOp.noConfusion heq
          · exact absurd h1b (backupWalk_ops_no_remove cfg env dryRun cutoff p fs _)
        · exact pruneWalk_remove_sound cutoff cfg.ErrorThresholdPercent dryRun p fs _ h2
    · simp only [Backup.RunBackup, hE, if_false] at hp
      rcases List.mem_append.mp hp with h1 | h2
      · simp at h1
      · exact pruneWalk_remove_sound cutoff cfg.ErrorThresholdPercent dryRun p fs _ h2
  · intro herr e he hdir hacc hrf hmt
    by_cases hE : cfg.EnableBackup = true
    · simp only [Backup.RunBackup, hE, if_true] at herr ⊢
      cases hw : (Backup.backupWalk cfg env false cutoff fs Backup.NewResult).2.2 with
      | some er =>
        rw [hw] at herr
        exact Option.noConfusion herr
      | none =>
        simp only [hw] at herr ⊢
        exact List.mem_append.mpr (Or.inr
          (pruneWalk_remove_complete cutoff cfg.ErrorThresholdPercent fs _
            herr e he hdir hacc hrf hmt))
    · simp only [Backup.RunBackup, hE, if_false] at herr ⊢
      exact List.mem_append.mpr (Or.inr
        (pruneWalk_remove_complete cutoff cfg.ErrorThresholdPercent fs _
          herr e he hdir hacc hrf hmt))

/-- C1 counterexample: a run in which the backup phase hard-fails for the
only old file (every local destination fails, so the file's replication
errors out and is recorded as a `"backup"` failure) still deletes that file
in the prune phase — refuting "a file whose backup phase hard-failed is not
deleted". -/
theorem C1_counterexample :
    FsOp.remove "t/old.log" ∈
      (Backup.RunBackup
        { TargetFolder := "t", EnableBackup := true, ErrorThresholdPercent := 0,
          backupPaths := ["b"], remoteBackups := [],
          comp := { Enabled := false, Algorithm := "none", Level := 6 } }
        { arrival := fun _ => ["b"],
          localOutcome := fun _ _ => Except.error "disk full",
          remoteOk := fun _ _ => false }
        false 100
        [{ path := "t/old.log", isDir := false, modTime := 0, size := 7,
           accessErr := none, removeFails := none }]).2.1 ∧
    ({ Path := "t/old.log", Operation := "backup",
       Err := "all local backups failed: backup to b: disk full" } : FileError) ∈
      (Backup.RunBackup
        { TargetFolder := "t", EnableBackup := true, ErrorThresholdPercent := 0,
          backupPaths := ["b"], remoteBackups := [],
          comp := { Enabled := false, Algorithm := "none", Level := 6 } }
        { arrival := fun _ => ["b"],
          localOutcome := fun _ _ => Except.error "disk full",
          remoteOk := fun _ _ => false }
        false 100
        [{ path := "t/old.log", isDir := false, modTime := 0, size := 7,
           accessErr := none, removeFails := none }]).1.Errors := by
  decide

/-- Witness for C1 at a concrete input: a run whose backup phase hard-fails
for the only old file finishes without a threshold error, and the amended
theorem's completeness part puts the file's deletion in the trace. -/
theorem C1_witness :
    FsOp.remove "logs/app.log" ∈
      (Backup.RunBackup
        { TargetFolder := "logs", EnableBackup := true, ErrorThresholdPercent := 0,
          backupPaths := ["bk"], remoteBackups := [],
          comp := { Enabled := false, Algorithm := "none", Level := 6 } }
        { arrival := fun _ => ["bk"],
          localOutcome := fun _ _ => Except.error "no space",
          remoteOk := fun _ _ => false }
        false 9
        [{ path := "logs/app.log", isDir := false, modTime := 0, size := 4,
           accessErr := none, removeFails := none }]).2.1 :=
  (C1_prune_deletes_old_files_regardless_of_backup
      { TargetFolder := "logs", EnableBackup := true, ErrorThresholdPercent := 0,
        backupPaths := ["bk"], remoteBackups := [],
        comp := { Enabled := false, Algorithm := "none", Level := 6 } }
      { arrival := fun _ => ["bk"],
        localOutcome := fun _ _ => Except.error "no space",
        remoteOk := fun _ _ => false }
      9
      [{ path := "logs/app.log", isDir := false, modTime := 0, size := 4,
         accessErr := none, removeFails := none }]).2
    (by decide)
    { path := "logs/app.log", isDir := false, modTime := 0, size := 4,
      accessErr := none, removeFails := none }
    (by decide) rfl rfl rfl (by decide)

/-- C2: the full operation trace of every dry run is exactly the
unconditional `os.MkdirAll` of each configured backup root (performed by
`RunBackup` with backup enabled *before* any dry-run check — so a dry run
does create directories when a backup root is missing), and nothing else:
neither walk performs any other operation, no file is written, none is
deleted, and the run returns no error. -/
theorem C2_dry_run_trace_is_backup_root_mkdirs :
    ∀ (cfg : Backup.Config) (env : Backup.Env) (cutoff : Int) (fs : List Entry),
      (Backup.RunBackup cfg env true cutoff fs).2.1
        = (if cfg.EnableBackup then cfg.backupPaths.map FsOp.mkdirAll else []) ∧
      (Backup.RunBackup cfg env true cutoff fs).2.2 = none := by
  intro cfg env cutoff fs
  by_cases hE : cfg.EnableBackup = true
  · constructor
    · simp only [Backup.RunBackup, hE, if_true, backupWalk_dry_err]
      simp [hE, backupWalk_dry_ops, Pruner.PruneFiles, pruneWalk_dry_ops]
    · simp only [Backup.RunBackup, hE, if_true, backupWalk_dry_err]
      simp [Pruner.PruneFiles, pruneWalk_dry_err]
  · constructor
    · simp only [Backup.RunBackup, hE, if_false]
      simp [hE, Pruner.PruneFiles, pruneWalk_dry_ops]
    · simp only [Backup.RunBackup, hE, if_false]
      simp [Pruner.PruneFiles, pruneWalk_dry_err]
